import Mathlib

/-!
Verification of the link normalization and validation pipeline of
src/streamlit_app.py (WhatsApp Link Scraper & Validator).

The Python source is shallowly embedded below.  Pure string manipulation is
translated to executable Lean functions over List Char / String; the network
layer (requests), the HTML parser (BeautifulSoup) and the entity decoder
(html.unescape) are external libraries, so their outputs appear as explicit
inputs of the model (FetchResult, ParsedPage); exceptions raised by them are
explicit constructors.  Statuses are the literal strings the source produces.
-/

namespace LinksApp

/-- The fixed invitation domain (source line 55). -/
def WHATSAPP_DOMAIN : String := "chat.whatsapp.com"

/-- Characters allowed in an invite code: the class [A-Za-z0-9_-] of
WHATSAPP_LINK_PATTERN (source line 63). -/
def isLinkChar (c : Char) : Bool := c.isAlpha || c.isDigit || c == '_' || c == '-'

/-- Python substring test (the "in" operator on str): true iff needle occurs
contiguously inside the haystack. -/
def hasSub (needle : List Char) : List Char → Bool
  | [] => needle.isEmpty
  | h :: t => needle.isPrefixOf (h :: t) || hasSub needle t

/-- Python str.strip(): remove leading and trailing whitespace.  (Python also
strips some exotic unicode whitespace; the code points differ only outside the
ASCII range, which no claim exercises.) -/
def pyStrip (cs : List Char) : List Char :=
  ((cs.dropWhile Char.isWhitespace).reverse.dropWhile Char.isWhitespace).reverse

/-- Python str.lower() (ASCII range; unicode case folding is not exercised). -/
def strLower (s : String) : String := String.mk (s.data.map Char.toLower)

/-- Python str.strip() lifted to String. -/
def stripStr (s : String) : String := String.mk (pyStrip s.data)

/-- Match a literal pattern at the head of a list, returning the remainder
(the building block used to embed the anchored regex re.match). -/
def dropLeading : List Char → List Char → Option (List Char)
  | [], s => some s
  | _ :: _, [] => none
  | p :: ps, c :: cs => if p == c then dropLeading ps cs else none

/-- The remainder after the first occurrence of a marker, or none if the
marker does not occur. -/
def findAfter (marker : List Char) : List Char → Option (List Char)
  | [] => if marker.isEmpty then some [] else none
  | c :: cs =>
    match dropLeading marker (c :: cs) with
    | some r => some r
    | none => findAfter marker cs

/-- urllib.parse.urlparse(u).netloc for the absolute URLs produced by
requests: the text after the first "//" up to the next "/", "?" or "#". -/
def netloc (u : String) : String :=
  match findAfter ['/', '/'] u.data with
  | some r => String.mk (r.takeWhile (fun c => !(c == '/' || c == '?' || c == '#')))
  | none => ""

/-- The alternation (jpg|jpeg|png|gif|webp) of OG_IMAGE_PATTERN (source
line 59). -/
def imageExts : List String := ["jpg", "jpeg", "png", "gif", "webp"]

/-- Does the list start with a dot followed by one of the image extensions
(the suffix \.(jpg|jpeg|png|gif|webp) of OG_IMAGE_PATTERN)? -/
def dotExtAt : List Char → Bool
  | '.' :: r => imageExts.any (fun e => e.data.isPrefixOf r)
  | _ => false

/-- The part .+\.(jpg|jpeg|png|gif|webp) of OG_IMAGE_PATTERN: at least one
non-newline character, then a dot and an extension.  Anything may follow
(re.match only requires a prefix match; the trailing optional query group
therefore never constrains acceptance). -/
def extScan : List Char → Bool
  | [] => false
  | c :: r => if c == '\n' then false else dotExtAt r || extScan r

/-- re.match of OG_IMAGE_PATTERN (source line 59), pattern
https?://[^\s/]+/.+\.(jpg|jpeg|png|gif|webp)(\?[^\s]*)? with re.IGNORECASE:
case handled by lowering the input, host = nonempty run without whitespace
or slash terminated by the first slash. -/
def ogImageMatch (s : String) : Bool :=
  let l := s.data.map Char.toLower
  match dropLeading ['h', 't', 't', 'p'] l with
  | none => false
  | some r0 =>
    let r1? : Option (List Char) :=
      match dropLeading ['s', ':', '/', '/'] r0 with
      | some r => some r
      | none => dropLeading [':', '/', '/'] r0
    match r1? with
    | none => false
    | some r1 =>
      let hostRun := r1.takeWhile (fun c => !(c.isWhitespace || c == '/'))
      match r1.dropWhile (fun c => !(c.isWhitespace || c == '/')) with
      | '/' :: tail => !hostRun.isEmpty && extScan tail
      | _ => false

/-! ## Normalizer (source lines 63 and 97-111) -/

/-- Group 1 of WHATSAPP_LINK_PATTERN for the http scheme. -/
def httpBase : String := "http://chat.whatsapp.com/"

/-- Group 1 of WHATSAPP_LINK_PATTERN for the https scheme. -/
def httpsBase : String := "https://chat.whatsapp.com/"

/-- The invite code group [A-Za-z0-9_-]{16,} taken greedily at the head of
rest; succeeds iff the maximal run has at least 16 characters. -/
def normNoInvite (base rest : List Char) : Option (List Char) :=
  let run := rest.takeWhile isLinkChar
  if 16 ≤ run.length then some (base ++ run) else none

/-- The tail (?:invite/)?([A-Za-z0-9_-]{16,}) of WHATSAPP_LINK_PATTERN,
including the regex backtracking: first try to consume the optional
"invite/" segment, fall back to matching the code directly. -/
def normTail (base rest : List Char) : Option (List Char) :=
  match dropLeading ("invite/".data) rest with
  | some r2 =>
    let run := r2.takeWhile isLinkChar
    if 16 ≤ run.length then some (base ++ run) else normNoInvite base rest
  | none => normNoInvite base rest

/-- WHATSAPP_LINK_PATTERN.match on an already stripped character list:
(https?://chat\.whatsapp\.com/)(?:invite/)?([A-Za-z0-9_-]{16,}), anchored at
the start, returning group1 ++ group2 on success. -/
def normCore (cs : List Char) : Option (List Char) :=
  match dropLeading httpsBase.data cs with
  | some rest => normTail httpsBase.data rest
  | none =>
    match dropLeading httpBase.data cs with
    | some rest => normTail httpBase.data rest
    | none => none

/-- normalize_whatsapp_link (source lines 97-111): strip the raw string,
match WHATSAPP_LINK_PATTERN at its start and rebuild base_url + invite_code,
or return None. -/
def normalize_whatsapp_link (link : String) : Option String :=
  (normCore (pyStrip link.data)).map (fun cs => String.mk cs)

/-! ## Fetcher + Classifier (source lines 146-192) -/

/-- One validation record: the dict built by validate_link with keys
"Group Name", "Group Link", "Logo URL", "Status". -/
structure ValidationRecord where
  groupName : String
  groupLink : String
  logoUrl : String
  status : String
deriving DecidableEq, Repr

/-- What the parsing layer (BeautifulSoup + html.unescape) produced for a
successfully fetched same-domain page.  ogTitle / ogImage are the content
attributes of the meta og:title / og:image tags after html.unescape (none if
the tag or its attribute is absent); h2Text is the first h2 element text via
get_text(strip=True); text is soup.get_text(). -/
structure ParsedPage where
  ogTitle : Option String
  h2Text : Option String
  ogImage : Option String
  text : String
deriving DecidableEq, Repr

/-- Outcome of the parsing/extraction section of validate_link: either it
runs to completion on a ParsedPage, or some library call raises an
unexpected exception (the bare except Exception arm, source line 190). -/
inductive ParseOutcome where
  | raises
  | ok (page : ParsedPage)
deriving DecidableEq, Repr

/-- Outcome of requests.get + raise_for_status (source lines 154-155),
matching the except arms of validate_link: Timeout, HTTPError (with the
response status code), other RequestException, or a successful response with
its final resolved URL (response.url after redirects). -/
inductive FetchResult where
  | timeout
  | httpError (code : Nat)
  | connError
  | success (finalUrl : String) (parse : ParseOutcome)
deriving DecidableEq, Repr

/-- The fixed expiry/fullness phrase list of the classifier (source
line 180). -/
def expiryPhrases : List String := ["link was reset", "is no longer available", "group is full"]

/-- validate_link (source lines 146-192) for one link and one fetch outcome.
Branches follow the source: network failures map to the except arms; a
successful response whose final URL does not contain WHATSAPP_DOMAIN as a
substring returns Redirected Away with urlparse netloc; otherwise the page is
parsed (an unexpected exception gives Parsing Error with the initial record
fields), the group name is taken from og:title (unescaped, stripped) with an
h2 fallback, the logo from og:image filtered by OG_IMAGE_PATTERN, and the
status from the expiry phrases, then the group name, defaulting to
Inactive. -/
def validate_link (link : String) (fetch : FetchResult) : ValidationRecord :=
  match fetch with
  | .timeout => ⟨"", link, "", "Timeout Error"⟩
  | .httpError code => ⟨"", link, "", "HTTP Error " ++ toString code⟩
  | .connError => ⟨"", link, "", "Connection Error"⟩
  | .success url parse =>
    if !(hasSub WHATSAPP_DOMAIN.data url.data) then
      ⟨"", link, "", "Redirected Away (" ++ netloc url ++ ")"⟩
    else
      match parse with
      | .raises => ⟨"", link, "", "Parsing Error"⟩
      | .ok p =>
        let gn0 : String :=
          match p.ogTitle with
          | some c => if c == "" then "" else stripStr c
          | none => ""
        let groupName : String :=
          if gn0 == "" then
            match p.h2Text with
            | some t => t
            | none => ""
          else gn0
        let logo0 : String :=
          match p.ogImage with
          | some c => if c == "" then "" else c
          | none => ""
        let logoUrl : String := if ogImageMatch logo0 then logo0 else ""
        let textLower := strLower p.text
        let status : String :=
          if expiryPhrases.any (fun ph => hasSub ph.data textLower.data) then
            "Expired or Full"
          else if !(groupName == "") && !(hasSub "invite".data (strLower groupName).data) then
            "Active"
          else
            "Inactive"
        ⟨groupName, link, logoUrl, status⟩

/-! ## Worker Pool Orchestrator (source lines 339-351) -/

/-- The batch dispatch of main (source lines 343-348): every link of the
batch is submitted once to validate_link.  as_completed collects the results
in completion order, so downstream theorems quantify over an arbitrary
permutation of this list. -/
def validateBatch (env : String → FetchResult) (links : List String) : List ValidationRecord :=
  links.map (fun l => validate_link l (env l))

/-- The closed status enumeration of the spec, written with the literal
strings the source produces: Active, ExpiredOrFull, RedirectedAway(host),
Inactive, NetworkError(timeout | http status | connection), ParsingError. -/
def StatusInEnum (s : String) : Prop :=
  s = "Active" ∨ s = "Expired or Full" ∨ (∃ h, s = "Redirected Away (" ++ h ++ ")") ∨
    s = "Inactive" ∨ s = "Timeout Error" ∨ (∃ n : Nat, s = "HTTP Error " ++ toString n) ∨
    s = "Connection Error" ∨ s = "Parsing Error"

/-! ## Validation Cache (source line 146) -/

/-- The cache TTL in seconds: ttl=3600 in the st.cache_data decorator. -/
def CACHE_TTL : Nat := 3600

/-- Modelled from the spec: the state of the st.cache_data memoization of
validate_link (the decorator itself lives in the streamlit library, not in
this repository).  Spec 4.4: a map from canonical link to cached record with
lazy TTL expiry.  fetchCount counts network fetches actually issued (the
network-call counter the spec uses to observe cache hits). -/
structure CacheState where
  entries : List (String × ValidationRecord × Nat)
  fetchCount : Nat
deriving DecidableEq, Repr

/-- Modelled from the spec: cache lookup with lazy expiry, fresh while
now < storedAt + CACHE_TTL. -/
def cacheLookup (cs : CacheState) (link : String) (now : Nat) : Option ValidationRecord :=
  match cs.entries.find? (fun e => e.1 == link) with
  | some e => if now < e.2.2 + CACHE_TTL then some e.2.1 else none
  | none => none

/-- Modelled from the spec: validate_link under the st.cache_data decorator.
A fresh cached record is returned as is (no fetch); otherwise the link is
fetched, validated and stored with the current time. -/
def validate_cached (env : String → FetchResult) (cs : CacheState) (link : String)
    (now : Nat) : ValidationRecord × CacheState :=
  match cacheLookup cs link now with
  | some r => (r, cs)
  | none =>
    let r := validate_link link (env link)
    (r, ⟨(link, r, now) :: cs.entries, cs.fetchCount + 1⟩)

/-! ## Result Store (source lines 351 and 358) -/

/-- The session-state update of main (source line 351): new results are
prepended to the accumulated list. -/
def mergeResults (store newRecs : List ValidationRecord) : List ValidationRecord :=
  newRecs ++ store

/-- The deduplicated master view (source line 358):
drop_duplicates(subset=["Group Link"]) keeps the first row for each link and
preserves order. -/
def snapshotGo (seen : List String) : List ValidationRecord → List ValidationRecord
  | [] => []
  | r :: rs =>
    if r.groupLink ∈ seen then snapshotGo seen rs
    else r :: snapshotGo (r.groupLink :: seen) rs

/-- The deduplicated, order-stable snapshot of the Result Store. -/
def snapshotResults (store : List ValidationRecord) : List ValidationRecord :=
  snapshotGo [] store

/-! ## Page Scraper (source lines 194-210 and 226-231) -/

/-- Outcome of fetching and parsing one result page in
scrape_whatsapp_links_from_page: either some library call raises (the except
arm, source line 208, reached before any link is collected since the fetch
is the first statement), or the anchor href attributes are extracted. -/
inductive PageScrape where
  | fail
  | ok (hrefs : List String)
deriving DecidableEq

/-- scrape_whatsapp_links_from_page (source lines 194-210): keep hrefs
containing the WhatsApp domain (the href=re.compile(WHATSAPP_DOMAIN) filter),
normalize each, drop rejections, collect into a set. -/
def scrape_whatsapp_links_from_page : PageScrape → Finset String
  | .fail => ∅
  | .ok hrefs =>
    ((hrefs.filter (fun h => hasSub WHATSAPP_DOMAIN.data h.data)).filterMap
      normalize_whatsapp_link).toFinset

/-- The page loop of run_google_search_and_scrape (source lines 226-231):
all_found_links.update(links_from_page) over the result pages. -/
def run_scan (pages : List PageScrape) : Finset String :=
  pages.foldl (fun acc p => acc ∪ scrape_whatsapp_links_from_page p) ∅

/-! ## Helper lemmas -/

theorem dropLeading_self_app (p r : List Char) : dropLeading p (p ++ r) = some r := by
  induction p with
  | nil => rfl
  | cons a ps ih => simp [dropLeading, ih]

theorem dropLeading_eq_some {p s r : List Char} (h : dropLeading p s = some r) :
    s = p ++ r := by
  induction p generalizing s with
  | nil => simpa [dropLeading] using h
  | cons a ps ih =>
    cases s with
    | nil => simp [dropLeading] at h
    | cons c cs =>
      by_cases hac : a = c
      · subst hac
        simp only [dropLeading, beq_self_eq_true, if_pos] at h
        simpa using ih h
      · simp [dropLeading, hac] at h

theorem append_ne_of_take_ne {a b : List Char} (n : Nat) (ha : n ≤ a.length)
    (hb : n ≤ b.length) (hne : a.take n ≠ b.take n) :
    ∀ r q : List Char, a ++ r ≠ b ++ q := by
  intro r q h
  apply hne
  have h2 := congrArg (List.take n) h
  rwa [List.take_append_of_le_length ha, List.take_append_of_le_length hb] at h2

theorem takeWhile_app_of {code rest : List Char} (p : Char → Bool)
    (hall : ∀ c ∈ code, p c = true)
    (hrest : rest = [] ∨ ∃ c cs, rest = c :: cs ∧ p c = false) :
    (code ++ rest).takeWhile p = code := by
  induction code with
  | nil =>
    rcases hrest with h | ⟨c, cs, rfl, hc⟩
    · simp [h]
    · simp [List.takeWhile_cons, hc]
  | cons a as ih =>
    have ha : p a = true := hall a (List.mem_cons_self a as)
    simp only [List.cons_append, List.takeWhile_cons, ha, if_true]
    rw [ih (fun c hc => hall c (List.mem_cons_of_mem a hc))]

theorem dropWhile_shape (p : Char → Bool) (l : List Char) :
    l.dropWhile p = [] ∨ ∃ c cs, l.dropWhile p = c :: cs ∧ p c = false := by
  induction l with
  | nil => exact Or.inl rfl
  | cons a as ih =>
    by_cases ha : p a = true
    · simpa [List.dropWhile_cons, ha] using ih
    · exact Or.inr ⟨a, as, by simp [List.dropWhile_cons, ha], by simpa using ha⟩

theorem strMk_app (a : String) (l : List Char) :
    a ++ String.mk l = String.mk (a.data ++ l) := by
  cases a
  rfl

/-! ## Claim theorems -/

/-- C1: for every canonical link whose fetch succeeds with a same-domain
final URL (the domain occurs in the final URL, the test the code performs),
if the visible page text contains one of the expiry/fullness phrases then the
status is Expired or Full, even when a non-empty social-preview title was
extracted: expiry phrases take precedence over the Active classification. -/
theorem C1_expiry_precedence (link url : String) (p : ParsedPage) (t : String)
    (hdom : hasSub WHATSAPP_DOMAIN.data url.data = true)
    (htitle : p.ogTitle = some t) (hne : ¬ stripStr t = "")
    (hphrase : ∃ ph ∈ expiryPhrases, hasSub ph.data (strLower p.text).data = true) :
    (validate_link link (.success url (.ok p))).status = "Expired or Full" := by
  have hany : expiryPhrases.any (fun ph => hasSub ph.data (strLower p.text).data) = true := by
    obtain ⟨ph, hm, hp⟩ := hphrase
    exact List.any_eq_true.mpr ⟨ph, hm, hp⟩
  simp [validate_link, hdom, hany]

/-- C1 witness: a page whose text holds an expiry phrase and whose og:title
is a non-empty group name classifies as Expired or Full. -/
theorem C1_expiry_precedence_witness :
    (validate_link "https://chat.whatsapp.com/ABCDEFGHIJKLMNOP"
        (.success "https://chat.whatsapp.com/ABCDEFGHIJKLMNOP"
          (.ok ⟨some "My Old Group", none, none,
            "My Old Group. Sorry, this invite link was reset."⟩))).status
      = "Expired or Full" :=
  C1_expiry_precedence _ _ _ "My Old Group" (by decide) rfl (by decide)
    ⟨"link was reset", by decide, by decide⟩

/-- C6: an unexpected exception raised while parsing or classifying a
successfully fetched same-domain page is converted into a record with status
Parsing Error; validate_link returns that record instead of propagating. -/
theorem C6_parsing_error_caught (link url : String)
    (hdom : hasSub WHATSAPP_DOMAIN.data url.data = true) :
    validate_link link (.success url .raises) = ⟨"", link, "", "Parsing Error"⟩ := by
  simp [validate_link, hdom]

/-- C6 witness at a concrete link and final URL. -/
theorem C6_parsing_error_caught_witness :
    validate_link "https://chat.whatsapp.com/ABCDEFGHIJKLMNOP"
        (.success "https://chat.whatsapp.com/ABCDEFGHIJKLMNOP" .raises)
      = ⟨"", "https://chat.whatsapp.com/ABCDEFGHIJKLMNOP", "", "Parsing Error"⟩ :=
  C6_parsing_error_caught _ _ (by decide)

/-- C7 counterexample: the code tests substring containment of the domain in
the whole final URL, not membership of the URL host in the domain.  A fetch
that ends on host evil.example with the domain mentioned in the query string
is classified Active, not Redirected Away, although its final URL does not
belong to the invitation domain. -/
theorem C7_redirect_counterexample :
    netloc "https://evil.example/?next=chat.whatsapp.com" ≠ WHATSAPP_DOMAIN ∧
    (validate_link "https://chat.whatsapp.com/ABCDEFGHIJKLMNOP"
        (.success "https://evil.example/?next=chat.whatsapp.com"
          (.ok ⟨some "Friends Group", none, none, "Join Friends Group on app"⟩))).status
      = "Active" ∧
    ∀ h : String, ("Active" : String) ≠ "Redirected Away (" ++ h ++ ")" := by
  refine ⟨by decide, by decide, ?_⟩
  intro h heq
  have hlen := congrArg String.length heq
  rw [String.length_append, String.length_append] at hlen
  have h1 : ("Active" : String).length = 6 := by decide
  have h2 : ("Redirected Away (" : String).length = 17 := by decide
  have h3 : (")" : String).length = 1 := by decide
  rw [h1, h2, h3] at hlen
  omega

/-- C7 amended: validate_link returns Redirected Away, carrying the
urlparse netloc of the final URL, exactly for successful fetches whose final
URL does not contain the invitation domain as a substring (rather than for
every final URL whose host is outside the domain). -/
theorem C7_redirect_amended (link url : String) (parse : ParseOutcome)
    (hdom : hasSub WHATSAPP_DOMAIN.data url.data = false) :
    validate_link link (.success url parse)
      = ⟨"", link, "", "Redirected Away (" ++ netloc url ++ ")"⟩ := by
  simp [validate_link, hdom]

/-- C7 amended witness: the real-world redirect target www.whatsapp.com does
not contain chat.whatsapp.com, so it is reported as Redirected Away with its
host. -/
theorem C7_redirect_amended_witness :
    validate_link "https://chat.whatsapp.com/ABCDEFGHIJKLMNOP"
        (.success "https://www.whatsapp.com/" (.ok ⟨some "G", none, none, ""⟩))
      = ⟨"", "https://chat.whatsapp.com/ABCDEFGHIJKLMNOP", "",
          "Redirected Away (www.whatsapp.com)"⟩ := by
  have h := C7_redirect_amended "https://chat.whatsapp.com/ABCDEFGHIJKLMNOP"
    "https://www.whatsapp.com/" (.ok ⟨some "G", none, none, ""⟩) (by decide)
  exact h.trans (by decide)

/-- C8: the classifier phrase set is the fixed list containing the reset
variant, the no-longer-available variant and the group-is-full variant; for
every successfully fetched same-domain page whose visible text contains any
member of the set (matched case-insensitively: the code lowercases the page
text and the phrases are lower case), the status is Expired or Full. -/
theorem C8_expiry_phrases :
    ("link was reset" ∈ expiryPhrases ∧ "is no longer available" ∈ expiryPhrases ∧
      "group is full" ∈ expiryPhrases) ∧
    ∀ (link url : String) (p : ParsedPage) (ph : String),
      hasSub WHATSAPP_DOMAIN.data url.data = true →
      ph ∈ expiryPhrases →
      hasSub ph.data (strLower p.text).data = true →
      (validate_link link (.success url (.ok p))).status = "Expired or Full" := by
  refine ⟨by decide, ?_⟩
  intro link url p ph hdom hm hp
  have hany : expiryPhrases.any (fun q => hasSub q.data (strLower p.text).data) = true :=
    List.any_eq_true.mpr ⟨ph, hm, hp⟩
  simp [validate_link, hdom, hany]

/-- C8 witness: an upper-case occurrence of the group-is-full phrase still
matches after lowering. -/
theorem C8_expiry_phrases_witness :
    (validate_link "https://chat.whatsapp.com/ABCDEFGHIJKLMNOP"
        (.success "https://chat.whatsapp.com/ABCDEFGHIJKLMNOP"
          (.ok ⟨none, some "Busy Group", none, "Sorry, this GROUP IS FULL right now"⟩))).status
      = "Expired or Full" :=
  C8_expiry_phrases.2 _ _ _ "group is full" (by decide) (by decide) (by decide)

theorem validate_link_groupLink (l : String) (f : FetchResult) :
    (validate_link l f).groupLink = l := by
  cases f with
  | timeout => rfl
  | httpError c => rfl
  | connError => rfl
  | success url parse =>
    simp only [validate_link]
    split
    · rfl
    · cases parse with
      | raises => rfl
      | ok p => rfl

theorem statusEnumIf (a b : Bool) :
    StatusInEnum (if a then "Expired or Full" else if b then "Active" else "Inactive") := by
  cases a with
  | false =>
    cases b with
    | false => exact Or.inr (Or.inr (Or.inr (Or.inl rfl)))
    | true => exact Or.inl rfl
  | true => exact Or.inr (Or.inl rfl)

theorem validate_link_status_enum (l : String) (f : FetchResult) :
    StatusInEnum (validate_link l f).status := by
  cases f with
  | timeout => exact Or.inr (Or.inr (Or.inr (Or.inr (Or.inl rfl))))
  | httpError c =>
    exact Or.inr (Or.inr (Or.inr (Or.inr (Or.inr (Or.inl ⟨c, rfl⟩)))))
  | connError =>
    exact Or.inr (Or.inr (Or.inr (Or.inr (Or.inr (Or.inr (Or.inl rfl))))))
  | success url parse =>
    simp only [validate_link]
    split
    · exact Or.inr (Or.inr (Or.inl ⟨netloc url, rfl⟩))
    · cases parse with
      | raises =>
        exact Or.inr (Or.inr (Or.inr (Or.inr (Or.inr (Or.inr (Or.inr rfl))))))
      | ok p => exact statusEnumIf _ _

/-- C2: for a batch of distinct canonical links, the collected results (any
completion order, hence an arbitrary permutation of the dispatched list) are
exactly one record per link: same count, the record links are a permutation
of the batch and pairwise distinct, and every status belongs to the closed
enumeration.  No link is dropped or duplicated. -/
theorem C2_batch_complete (env : String → FetchResult) (links : List String)
    (hnd : links.Nodup) (out : List ValidationRecord)
    (hperm : out.Perm (validateBatch env links)) :
    out.length = links.length ∧
    (out.map (fun r => r.groupLink)).Perm links ∧
    (out.map (fun r => r.groupLink)).Nodup ∧
    ∀ r ∈ out, StatusInEnum r.status := by
  have hmap : (validateBatch env links).map (fun r => r.groupLink) = links := by
    unfold validateBatch
    rw [List.map_map]
    have hfn : ((fun r : ValidationRecord => r.groupLink) ∘ fun l => validate_link l (env l))
        = id := by
      funext l
      exact validate_link_groupLink l (env l)
    rw [hfn, List.map_id]
  have hpm : (out.map (fun r => r.groupLink)).Perm links := by
    have h := hperm.map (fun r => r.groupLink)
    rwa [hmap] at h
  refine ⟨?_, hpm, (List.Perm.nodup_iff hpm).mpr hnd, ?_⟩
  · rw [hperm.length_eq]
    unfold validateBatch
    exact List.length_map _ _
  · intro r hr
    have hr2 : r ∈ validateBatch env links := hperm.mem_iff.mp hr
    obtain ⟨l, _, rfl⟩ := List.mem_map.mp hr2
    exact validate_link_status_enum l (env l)

/-- C2 witness: a concrete two-link batch under a concrete fetch
environment. -/
theorem C2_batch_complete_witness :
    (validateBatch (fun _ => FetchResult.timeout)
        ["https://chat.whatsapp.com/ABCDEFGHIJKLMNOP",
         "https://chat.whatsapp.com/QRSTUVWXYZ012345"]).length
      = (["https://chat.whatsapp.com/ABCDEFGHIJKLMNOP",
          "https://chat.whatsapp.com/QRSTUVWXYZ012345"] : List String).length ∧
    ((validateBatch (fun _ => FetchResult.timeout)
        ["https://chat.whatsapp.com/ABCDEFGHIJKLMNOP",
         "https://chat.whatsapp.com/QRSTUVWXYZ012345"]).map
      (fun r => r.groupLink)).Nodup := by
  have h := C2_batch_complete (fun _ => FetchResult.timeout)
    ["https://chat.whatsapp.com/ABCDEFGHIJKLMNOP",
     "https://chat.whatsapp.com/QRSTUVWXYZ012345"] (by decide)
    (validateBatch (fun _ => FetchResult.timeout)
      ["https://chat.whatsapp.com/ABCDEFGHIJKLMNOP",
       "https://chat.whatsapp.com/QRSTUVWXYZ012345"]) (List.Perm.refl _)
  exact ⟨h.1, h.2.2.1⟩

/-- C3: a link first validated through the cache at time t1 (cache miss),
then resubmitted at any time t2 inside the TTL window, yields the identical
record and leaves the cache state untouched: in particular the fetch counter
does not move, so no second network fetch is issued. -/
theorem C3_cache_hit (env : String → FetchResult) (cs0 : CacheState) (link : String)
    (t1 t2 : Nat) (hmiss : cacheLookup cs0 link t1 = none) (h12 : t1 ≤ t2)
    (httl : t2 < t1 + CACHE_TTL) :
    validate_cached env (validate_cached env cs0 link t1).2 link t2
      = validate_cached env cs0 link t1 ∧
    ((validate_cached env (validate_cached env cs0 link t1).2 link t2).2).fetchCount
      = ((validate_cached env cs0 link t1).2).fetchCount := by
  have h1 : validate_cached env cs0 link t1
      = (validate_link link (env link),
          ⟨(link, validate_link link (env link), t1) :: cs0.entries, cs0.fetchCount + 1⟩) := by
    unfold validate_cached
    rw [hmiss]
  have h2 : cacheLookup
      ⟨(link, validate_link link (env link), t1) :: cs0.entries, cs0.fetchCount + 1⟩ link t2
      = some (validate_link link (env link)) := by
    unfold cacheLookup
    simp [List.find?, httl]
  have main : validate_cached env (validate_cached env cs0 link t1).2 link t2
      = validate_cached env cs0 link t1 := by
    rw [h1]
    unfold validate_cached
    rw [h2]
  exact ⟨main, by rw [main]⟩

/-- C3 witness: first validation at time 0 into an empty cache, resubmission
at time 100. -/
theorem C3_cache_hit_witness :
    validate_cached (fun _ => FetchResult.timeout)
        (validate_cached (fun _ => FetchResult.timeout) ⟨[], 0⟩
          "https://chat.whatsapp.com/ABCDEFGHIJKLMNOP" 0).2
        "https://chat.whatsapp.com/ABCDEFGHIJKLMNOP" 100
      = validate_cached (fun _ => FetchResult.timeout) ⟨[], 0⟩
          "https://chat.whatsapp.com/ABCDEFGHIJKLMNOP" 0 :=
  (C3_cache_hit (fun _ => FetchResult.timeout) ⟨[], 0⟩
    "https://chat.whatsapp.com/ABCDEFGHIJKLMNOP" 0 100 rfl (by decide) (by decide)).1

theorem snapshotGo_key :
    ∀ (l : List ValidationRecord) (seen : List String) (x : ValidationRecord),
      x ∈ snapshotGo seen l → x.groupLink ∉ seen := by
  intro l
  induction l with
  | nil =>
    intro seen x h
    simp [snapshotGo] at h
  | cons a as ih =>
    intro seen x h
    simp only [snapshotGo] at h
    by_cases ha : a.groupLink ∈ seen
    · rw [if_pos ha] at h
      exact ih seen x h
    · rw [if_neg ha] at h
      rcases List.mem_cons.mp h with rfl | h2
      · exact ha
      · have h3 := ih _ x h2
        exact fun hs => h3 (List.mem_cons_of_mem _ hs)

/-- C4: the Result Store merge (prepend, then the deduplicated-by-link master
view keeping the first row) is last-write-wins per canonical link: after
merging a record for link A into a store already holding a record with key A,
the snapshot has exactly one record for A and it is the newer one. -/
theorem C4_merge_last_write_wins (s0 : List ValidationRecord)
    (rOld rNew : ValidationRecord) (hkey : rOld.groupLink = rNew.groupLink) :
    (snapshotResults (mergeResults (mergeResults s0 [rOld]) [rNew])).filter
      (fun x => x.groupLink == rNew.groupLink) = [rNew] := by
  show (snapshotGo [] (rNew :: rOld :: s0)).filter
      (fun x => x.groupLink == rNew.groupLink) = [rNew]
  have hstep : snapshotGo [] (rNew :: rOld :: s0)
      = rNew :: snapshotGo [rNew.groupLink] (rOld :: s0) := by
    simp [snapshotGo]
  rw [hstep]
  rw [List.filter_cons_of_pos (by simp)]
  have hrest : (snapshotGo [rNew.groupLink] (rOld :: s0)).filter
      (fun x => x.groupLink == rNew.groupLink) = [] := by
    apply List.filter_eq_nil_iff.mpr
    intro x hx
    have h := snapshotGo_key _ _ _ hx
    simp only [List.mem_singleton] at h
    simpa using h
  rw [hrest]

/-- C4 witness: merging an Inactive then an Active record for the same link
leaves exactly one record, the Active one. -/
theorem C4_merge_last_write_wins_witness :
    (snapshotResults (mergeResults (mergeResults []
        [⟨"", "https://chat.whatsapp.com/ABCDEFGHIJKLMNOP", "", "Inactive"⟩])
        [⟨"Some Group", "https://chat.whatsapp.com/ABCDEFGHIJKLMNOP", "", "Active"⟩])).filter
      (fun x => x.groupLink == "https://chat.whatsapp.com/ABCDEFGHIJKLMNOP")
      = [⟨"Some Group", "https://chat.whatsapp.com/ABCDEFGHIJKLMNOP", "", "Active"⟩] :=
  C4_merge_last_write_wins []
    ⟨"", "https://chat.whatsapp.com/ABCDEFGHIJKLMNOP", "", "Inactive"⟩
    ⟨"Some Group", "https://chat.whatsapp.com/ABCDEFGHIJKLMNOP", "", "Active"⟩ rfl

theorem run_scan_acc (pages : List PageScrape) :
    ∀ acc : Finset String,
      acc ⊆ pages.foldl (fun a p => a ∪ scrape_whatsapp_links_from_page p) acc := by
  induction pages with
  | nil => intro acc; simp [List.foldl]
  | cons p ps ih =>
    intro acc
    calc acc ⊆ acc ∪ scrape_whatsapp_links_from_page p := Finset.subset_union_left
    _ ⊆ _ := ih _

/-- C9: a fetch or parse failure while scraping one page yields the empty
link set (and is not propagated), and every link scraped from any page of a
multi-page scan is present in the final accumulated set regardless of
failures on the other pages. -/
theorem C9_scrape_isolation :
    scrape_whatsapp_links_from_page .fail = ∅ ∧
    ∀ (pages : List PageScrape) (p : PageScrape), p ∈ pages →
      scrape_whatsapp_links_from_page p ⊆ run_scan pages := by
  refine ⟨rfl, ?_⟩
  have hgen : ∀ (pages : List PageScrape) (p : PageScrape), p ∈ pages →
      ∀ acc : Finset String,
        scrape_whatsapp_links_from_page p
          ⊆ pages.foldl (fun a q => a ∪ scrape_whatsapp_links_from_page q) acc := by
    intro pages
    induction pages with
    | nil =>
      intro p hp
      simp at hp
    | cons q qs ih =>
      intro p hp acc
      rcases List.mem_cons.mp hp with rfl | h2
      · calc scrape_whatsapp_links_from_page p
            ⊆ acc ∪ scrape_whatsapp_links_from_page p := Finset.subset_union_right
        _ ⊆ _ := run_scan_acc qs _
      · exact ih p h2 _
  intro pages p hp
  exact hgen pages p hp ∅

/-- C9 witness: a link scraped from the second page survives a failure of the
first page of the same scan. -/
theorem C9_scrape_isolation_witness :
    ("https://chat.whatsapp.com/ABCDEFGHIJKLMNOP" : String) ∈
      run_scan [.fail, .ok ["https://chat.whatsapp.com/ABCDEFGHIJKLMNOP"]] :=
  C9_scrape_isolation.2 [.fail, .ok ["https://chat.whatsapp.com/ABCDEFGHIJKLMNOP"]]
    (.ok ["https://chat.whatsapp.com/ABCDEFGHIJKLMNOP"]) (by decide) (by decide)

/-! ## Normalizer lemmas -/

theorem invite_no_long_run (r : List Char) :
    (("invite/".data ++ r).takeWhile isLinkChar).length = 6 := by
  have h7 : "invite/".data = ['i', 'n', 'v', 'i', 't', 'e', '/'] := by decide
  have hi : isLinkChar 'i' = true := by decide
  have hn : isLinkChar 'n' = true := by decide
  have hv : isLinkChar 'v' = true := by decide
  have ht : isLinkChar 't' = true := by decide
  have he : isLinkChar 'e' = true := by decide
  have hsl : isLinkChar '/' = false := by decide
  rw [h7]
  simp [List.takeWhile_cons, hi, hn, hv, ht, he, hsl]

theorem normTail_of_run (base T : List Char)
    (hrun : 16 ≤ (T.takeWhile isLinkChar).length) :
    normTail base T = some (base ++ T.takeWhile isLinkChar) := by
  unfold normTail
  cases h : dropLeading "invite/".data T with
  | none => simp [normNoInvite, hrun]
  | some r2 =>
    exfalso
    have hT := dropLeading_eq_some h
    rw [hT, invite_no_long_run r2] at hrun
    exact absurd hrun (by decide)

theorem normTail_invite (base T : List Char)
    (hrun : 16 ≤ (T.takeWhile isLinkChar).length) :
    normTail base ("invite/".data ++ T) = some (base ++ T.takeWhile isLinkChar) := by
  unfold normTail
  rw [dropLeading_self_app]
  simp [hrun]

theorem normCore_https (T : List Char) :
    normCore (httpsBase.data ++ T) = normTail httpsBase.data T := by
  unfold normCore
  rw [dropLeading_self_app]

theorem normCore_http (T : List Char) :
    normCore (httpBase.data ++ T) = normTail httpBase.data T := by
  unfold normCore
  cases h : dropLeading httpsBase.data (httpBase.data ++ T) with
  | some r =>
    exact absurd (dropLeading_eq_some h)
      (append_ne_of_take_ne 5 (by decide) (by decide) (by decide) T r)
  | none => rw [dropLeading_self_app]

theorem normalize_run (s base : String) (hb : base = httpBase ∨ base = httpsBase)
    (inv : Bool) (T : List Char)
    (hs : pyStrip s.data = base.data ++ (cond inv "invite/".data []) ++ T)
    (hrun : 16 ≤ (T.takeWhile isLinkChar).length) :
    normalize_whatsapp_link s = some (base ++ String.mk (T.takeWhile isLinkChar)) := by
  unfold normalize_whatsapp_link
  rw [hs, strMk_app]
  rcases hb with rfl | rfl <;> cases inv
  · rw [show httpBase.data ++ (cond false "invite/".data []) ++ T = httpBase.data ++ T by simp]
    rw [normCore_http, normTail_of_run _ _ hrun]
    rfl
  · rw [show httpBase.data ++ (cond true "invite/".data []) ++ T
        = httpBase.data ++ ("invite/".data ++ T) by simp]
    rw [normCore_http, normTail_invite _ _ hrun]
    rfl
  · rw [show httpsBase.data ++ (cond false "invite/".data []) ++ T = httpsBase.data ++ T by simp]
    rw [normCore_https, normTail_of_run _ _ hrun]
    rfl
  · rw [show httpsBase.data ++ (cond true "invite/".data []) ++ T
        = httpsBase.data ++ ("invite/".data ++ T) by simp]
    rw [normCore_https, normTail_invite _ _ hrun]
    rfl

theorem normTail_complete (base rest out : List Char) (h : normTail base rest = some out) :
    ∃ code tail : List Char,
      (rest = code ++ tail ∨ rest = "invite/".data ++ code ++ tail) ∧
      out = base ++ code ∧ 16 ≤ code.length ∧ (∀ c ∈ code, isLinkChar c = true) ∧
      (tail = [] ∨ ∃ c cs, tail = c :: cs ∧ isLinkChar c = false) := by
  have noInv : ∀ out2 : List Char, normNoInvite base rest = some out2 →
      ∃ code tail : List Char,
        rest = code ++ tail ∧ out2 = base ++ code ∧ 16 ≤ code.length ∧
        (∀ c ∈ code, isLinkChar c = true) ∧
        (tail = [] ∨ ∃ c cs, tail = c :: cs ∧ isLinkChar c = false) := by
    intro out2 h2
    unfold normNoInvite at h2
    by_cases hc : 16 ≤ (rest.takeWhile isLinkChar).length
    · rw [if_pos hc] at h2
      refine ⟨rest.takeWhile isLinkChar, rest.dropWhile isLinkChar,
        (List.takeWhile_append_dropWhile isLinkChar rest).symm,
        (Option.some.inj h2).symm, hc, ?_, dropWhile_shape isLinkChar rest⟩
      intro c hc2
      exact List.mem_takeWhile_imp hc2
    · rw [if_neg hc] at h2
      cases h2
  unfold normTail at h
  cases hi : dropLeading "invite/".data rest with
  | none =>
    rw [hi] at h
    obtain ⟨code, tail, hd, rest2⟩ := noInv out h
    exact ⟨code, tail, Or.inl hd, rest2⟩
  | some r2 =>
    rw [hi] at h
    dsimp only at h
    have hr : rest = "invite/".data ++ r2 := dropLeading_eq_some hi
    by_cases hc : 16 ≤ (r2.takeWhile isLinkChar).length
    · rw [if_pos hc] at h
      refine ⟨r2.takeWhile isLinkChar, r2.dropWhile isLinkChar, Or.inr ?_,
        (Option.some.inj h).symm, hc, ?_, dropWhile_shape isLinkChar r2⟩
      · rw [hr, List.append_assoc, List.takeWhile_append_dropWhile]
      · intro c hc2
        exact List.mem_takeWhile_imp hc2
    · rw [if_neg hc] at h
      obtain ⟨code, tail, hd, rest2⟩ := noInv out h
      exact ⟨code, tail, Or.inl hd, rest2⟩

/-- The stripped input of every accepted raw string starts with one of the
two scheme-domain literals, and the canonical output rebuilds that literal
followed by the maximal code run. -/
theorem normalize_complete (s res : String) (hres : normalize_whatsapp_link s = some res) :
    ∃ (base : String) (code tail : List Char),
      (base = httpBase ∨ base = httpsBase) ∧
      (pyStrip s.data = base.data ++ code ++ tail ∨
        pyStrip s.data = base.data ++ "invite/".data ++ code ++ tail) ∧
      res = base ++ String.mk code ∧ 16 ≤ code.length ∧
      (∀ c ∈ code, isLinkChar c = true) ∧
      (tail = [] ∨ ∃ c cs, tail = c :: cs ∧ isLinkChar c = false) := by
  unfold normalize_whatsapp_link normCore at hres
  cases hh : dropLeading httpsBase.data (pyStrip s.data) with
  | some rest =>
    rw [hh] at hres
    dsimp only at hres
    cases ht : normTail httpsBase.data rest with
    | none => rw [ht] at hres; cases hres
    | some out =>
      rw [ht] at hres
      have hout : res = String.mk out := (Option.some.inj hres).symm
      obtain ⟨code, tail, hd, hout2, hlen, hall, htail⟩ :=
        normTail_complete httpsBase.data rest out ht
      refine ⟨httpsBase, code, tail, Or.inr rfl, ?_, ?_, hlen, hall, htail⟩
      · have hsplit := dropLeading_eq_some hh
        rcases hd with hd | hd
        · exact Or.inl (by rw [hsplit, hd, List.append_assoc])
        · refine Or.inr ?_
          rw [hsplit, hd]
          simp [List.append_assoc]
      · rw [hout, hout2, ← strMk_app]
  | none =>
    rw [hh] at hres
    dsimp only at hres
    cases hh2 : dropLeading httpBase.data (pyStrip s.data) with
    | some rest =>
      rw [hh2] at hres
      dsimp only at hres
      cases ht : normTail httpBase.data rest with
      | none => rw [ht] at hres; cases hres
      | some out =>
        rw [ht] at hres
        have hout : res = String.mk out := (Option.some.inj hres).symm
        obtain ⟨code, tail, hd, hout2, hlen, hall, htail⟩ :=
          normTail_complete httpBase.data rest out ht
        refine ⟨httpBase, code, tail, Or.inl rfl, ?_, ?_, hlen, hall, htail⟩
        · have hsplit := dropLeading_eq_some hh2
          rcases hd with hd | hd
          · exact Or.inl (by rw [hsplit, hd, List.append_assoc])
          · refine Or.inr ?_
            rw [hsplit, hd]
            simp [List.append_assoc]
        · rw [hout, hout2, ← strMk_app]
    | none =>
      rw [hh2] at hres
      dsimp only at hres
      cases hres

/-- A query string or fragment as appended to a raw invite URL: either
absent, or starting with the question mark or hash delimiter. -/
def queryFrag (q : String) : Prop :=
  q = "" ∨ ∃ r : String, q = "?" ++ r ∨ q = "#" ++ r

theorem queryFrag_shape (q : String) (h : queryFrag q) :
    q.data = [] ∨ ∃ c cs, q.data = c :: cs ∧ isLinkChar c = false := by
  rcases h with rfl | ⟨r, hq | hq⟩
  · exact Or.inl rfl
  · refine Or.inr ⟨'?', r.data, ?_, by decide⟩
    rw [hq, String.data_append]
    rfl
  · refine Or.inr ⟨'#', r.data, ?_, by decide⟩
    rw [hq, String.data_append]
    rfl

/-- A raw invite URL built from a scheme-domain base, an optional invite
segment, a code and a query-or-fragment suffix. -/
def rawForm (base : String) (inv : Bool) (code q : String) : String :=
  base ++ (cond inv "invite/" "") ++ code ++ q

/-- C5: for every invite code of valid shape, raw strings that differ only
in the presence of the invite segment and in their query string or fragment
normalize to the same canonical link, rebuilt as the scheme-domain base
followed by the code, with no trailing slash. -/
theorem C5_normalize_invite_query (base : String)
    (hb : base = httpBase ∨ base = httpsBase)
    (code : String) (hlen : 16 ≤ code.length)
    (hchars : ∀ c ∈ code.data, isLinkChar c = true)
    (inv1 inv2 : Bool) (q1 q2 : String) (hq1 : queryFrag q1) (hq2 : queryFrag q2)
    (s1 s2 : String)
    (h1 : pyStrip s1.data = (rawForm base inv1 code q1).data)
    (h2 : pyStrip s2.data = (rawForm base inv2 code q2).data) :
    normalize_whatsapp_link s1 = normalize_whatsapp_link s2 ∧
    normalize_whatsapp_link s1 = some (base ++ code) ∧
    ∀ res, normalize_whatsapp_link s1 = some res → res.data.getLast? ≠ some '/' := by
  have hdata : ∀ (inv : Bool) (q : String), (rawForm base inv code q).data
      = base.data ++ (cond inv "invite/".data []) ++ (code.data ++ q.data) := by
    intro inv q
    unfold rawForm
    rw [String.data_append, String.data_append, String.data_append]
    cases inv
    · have he : ("" : String).data = [] := rfl
      simp [he, List.append_assoc]
    · simp [List.append_assoc]
  have hw : ∀ q : String, queryFrag q → (code.data ++ q.data).takeWhile isLinkChar
      = code.data := by
    intro q hq
    exact takeWhile_app_of isLinkChar hchars (queryFrag_shape q hq)
  have hmkcode : String.mk code.data = code := rfl
  have e1 : normalize_whatsapp_link s1 = some (base ++ code) := by
    have h := normalize_run s1 base hb inv1 (code.data ++ q1.data)
      (by rw [h1, hdata]) (by rw [hw q1 hq1]; exact hlen)
    rwa [hw q1 hq1, hmkcode] at h
  have e2 : normalize_whatsapp_link s2 = some (base ++ code) := by
    have h := normalize_run s2 base hb inv2 (code.data ++ q2.data)
      (by rw [h2, hdata]) (by rw [hw q2 hq2]; exact hlen)
    rwa [hw q2 hq2, hmkcode] at h
  refine ⟨e1.trans e2.symm, e1, ?_⟩
  intro res hres
  rw [e1] at hres
  have hr : res = base ++ code := (Option.some.inj hres).symm
  have hne : code.data ≠ [] := by
    intro h0
    have : code.length = 0 := by
      show code.data.length = 0
      rw [h0]
      rfl
    omega
  have hlast : res.data.getLast? = code.data.getLast? := by
    rw [hr, String.data_append]
    exact List.getLast?_append_of_ne_nil base.data hne
  intro hbad
  rw [hlast] at hbad
  have hmem : ('/' : Char) ∈ code.data := by
    have h2 := List.mem_getLast?_eq_getLast (l := code.data) (x := '/')
      (by rw [hbad]; exact rfl)
    obtain ⟨hne2, heq⟩ := h2
    rw [heq]
    exact List.getLast_mem hne2
  have := hchars '/' hmem
  exact absurd this (by decide)

/-- C5 witness: an invite-segment variant with a query string and a plain
variant with a fragment normalize identically. -/
theorem C5_normalize_invite_query_witness :
    normalize_whatsapp_link "https://chat.whatsapp.com/invite/ABCDEFGHIJKLMNOP?ref=1"
      = normalize_whatsapp_link "https://chat.whatsapp.com/ABCDEFGHIJKLMNOP#frag" ∧
    normalize_whatsapp_link "https://chat.whatsapp.com/invite/ABCDEFGHIJKLMNOP?ref=1"
      = some "https://chat.whatsapp.com/ABCDEFGHIJKLMNOP" := by
  have h := C5_normalize_invite_query httpsBase (Or.inr rfl) "ABCDEFGHIJKLMNOP"
    (by decide) (by decide) true false "?ref=1" "#frag"
    (Or.inr ⟨"ref=1", Or.inl (by decide)⟩) (Or.inr ⟨"frag", Or.inr (by decide)⟩)
    "https://chat.whatsapp.com/invite/ABCDEFGHIJKLMNOP?ref=1"
    "https://chat.whatsapp.com/ABCDEFGHIJKLMNOP#frag" (by decide) (by decide)
  exact ⟨h.1, h.2.1.trans (by decide)⟩

/-- C10: normalization is anchored at the start of the stripped input.  A
stripped input that does not begin with a scheme-domain literal (for example
because text precedes the scheme) is rejected; an input that begins with a
scheme-domain literal, an optional invite segment and a code run of at least
16 allowed characters is accepted with the code cut at the first disallowed
character and the original scheme preserved; and every accepted input has
exactly that shape. -/
theorem C10_normalize_anchoring :
    (∀ s : String,
      (∀ r, pyStrip s.data ≠ httpBase.data ++ r) →
      (∀ r, pyStrip s.data ≠ httpsBase.data ++ r) →
      normalize_whatsapp_link s = none) ∧
    (∀ (s base : String), (base = httpBase ∨ base = httpsBase) →
      ∀ (inv : Bool) (T : List Char),
        pyStrip s.data = base.data ++ (cond inv "invite/".data []) ++ T →
        16 ≤ (T.takeWhile isLinkChar).length →
        normalize_whatsapp_link s = some (base ++ String.mk (T.takeWhile isLinkChar))) ∧
    (∀ s res : String, normalize_whatsapp_link s = some res →
      ∃ (base : String) (code tail : List Char),
        (base = httpBase ∨ base = httpsBase) ∧
        (pyStrip s.data = base.data ++ code ++ tail ∨
          pyStrip s.data = base.data ++ "invite/".data ++ code ++ tail) ∧
        res = base ++ String.mk code ∧ 16 ≤ code.length ∧
        (∀ c ∈ code, isLinkChar c = true) ∧
        (tail = [] ∨ ∃ c cs, tail = c :: cs ∧ isLinkChar c = false)) := by
  refine ⟨?_, ?_, normalize_complete⟩
  · intro s h1 h2
    unfold normalize_whatsapp_link
    suffices hc : normCore (pyStrip s.data) = none by rw [hc]; rfl
    unfold normCore
    cases hh : dropLeading httpsBase.data (pyStrip s.data) with
    | some r => exact absurd (dropLeading_eq_some hh) (h2 r)
    | none =>
      cases hh2 : dropLeading httpBase.data (pyStrip s.data) with
      | some r => exact absurd (dropLeading_eq_some hh2) (h1 r)
      | none => rfl
  · intro s base hb inv T hs hrun
    exact normalize_run s base hb inv T hs hrun

/-- C10 witness: text before the scheme is rejected; surrounding whitespace,
an invite segment and a trailing query are tolerated with the scheme
preserved. -/
theorem C10_normalize_anchoring_witness :
    normalize_whatsapp_link "see https://chat.whatsapp.com/ABCDEFGHIJKLMNOP" = none ∧
    normalize_whatsapp_link " http://chat.whatsapp.com/invite/ABCDEFGHIJKLMNOP?ref=x "
      = some "http://chat.whatsapp.com/ABCDEFGHIJKLMNOP" := by
  constructor
  · apply C10_normalize_anchoring.1
    · intro r h
      have h5 := congrArg (List.take 5) h
      rw [List.take_append_of_le_length (by decide)] at h5
      exact absurd h5 (by decide)
    · intro r h
      have h5 := congrArg (List.take 5) h
      rw [List.take_append_of_le_length (by decide)] at h5
      exact absurd h5 (by decide)
  · have h := C10_normalize_anchoring.2.1
      " http://chat.whatsapp.com/invite/ABCDEFGHIJKLMNOP?ref=x " httpBase (Or.inl rfl)
      true ("ABCDEFGHIJKLMNOP?ref=x".data) (by decide) (by decide)
    exact h.trans (by decide)

end LinksApp
